import Mathlib

/-!
Verification of the token lifecycle of the educational FastAPI auth server
(`auth_server_fastapi.py`): token issuance (`create_simple_token`), validation
(`validate_token`), the login/logout endpoints, and the expired-token purge of
the admin listing endpoint.

Modelling choices, stated once here:

* Machine time (`datetime`) is modelled as a natural number of seconds.
  `datetime.now()` is an effect; each call site of `now()` becomes its own
  parameter of the embedded function.  `timedelta(minutes=m)` is `m * 60`.
  `isoformat`/`fromisoformat` are modelled as the decimal-numeral printer and
  parser on those second counts (an injective printer with a partial inverse,
  exactly the interface the program relies on).
* `hashlib.sha256(...).hexdigest()` is an external library function; it is a
  parameter `hash : String → String` of every definition that uses it.  The
  facts the program relies on (the hex digest is 64 characters long and
  contains no `'.'`) appear as explicit hypotheses of the theorems.
* `json.dumps`/`base64.b64encode` and their inverses are external library
  functions; they are modelled by a concrete executable serialization
  `encodePayload`/`decodePayload` of JSON values into strings, with the
  interface properties the program relies on proved below: the decoder is a
  left inverse of the encoder, and decoding is partial on arbitrary strings.
  The JSON universe is restricted to the value shapes the token code can
  exercise: objects whose values are strings or numbers, and arrays.
* Python dicts keyed by strings become association lists; assignment, `del`,
  membership and lookup are modelled by `insertReg`, `eraseReg`, `lookupReg`.
* The uncaught-exception behaviour of `validate_token` (its `except` clause
  catches `ValueError`, `KeyError` and `json.JSONDecodeError` but not
  `TypeError`) is modelled by the `Except PyErr` codomain: `.ok none` is the
  Python `return None`, `.error .typeError` is an uncaught `TypeError`.
-/

namespace AuthServer

/-! ### Decimal numerals (model of `str`/`int` printing and parsing) -/

def digitChar : Nat → Char
  | 0 => '0' | 1 => '1' | 2 => '2' | 3 => '3' | 4 => '4'
  | 5 => '5' | 6 => '6' | 7 => '7' | 8 => '8' | _ => '9'

def digitVal (c : Char) : Nat := c.toNat - 48

/-- Fuel-driven most-significant-first decimal digits; fuel `n + 1` always
suffices for input `n`. -/
def natDigitsAux : Nat → Nat → List Char
  | 0, _ => []
  | fuel + 1, n =>
    if n < 10 then [digitChar n]
    else natDigitsAux fuel (n / 10) ++ [digitChar (n % 10)]

def natDigits (n : Nat) : List Char := natDigitsAux (n + 1) n

def digitsVal (ds : List Char) : Nat := ds.foldl (fun a c => a * 10 + digitVal c) 0

theorem digitVal_digitChar {d : Nat} (h : d < 10) : digitVal (digitChar d) = d := by
  interval_cases d <;> rfl

theorem isDigit_digitChar (d : Nat) : (digitChar d).isDigit = true := by
  unfold digitChar
  split <;> rfl

theorem natDigitsAux_fuel {n : Nat} : ∀ {fuel : Nat}, n < fuel → natDigitsAux fuel n = natDigits n := by
  induction n using Nat.strong_induction_on with
  | _ n ih =>
    intro fuel hfuel
    match fuel, hfuel with
    | f + 1, hfuel =>
      show natDigitsAux (f + 1) n = natDigitsAux (n + 1) n
      by_cases h10 : n < 10
      · simp [natDigitsAux, h10]
      · have hd : n / 10 < n := Nat.div_lt_self (by omega) (by omega)
        have hf : n / 10 < f := by omega
        simp only [natDigitsAux, if_neg h10]
        rw [ih (n / 10) hd hf, ih (n / 10) hd (by omega)]

theorem natDigits_eq (n : Nat) :
    natDigits n = if n < 10 then [digitChar n] else natDigits (n / 10) ++ [digitChar (n % 10)] := by
  show natDigitsAux (n + 1) n = _
  by_cases h10 : n < 10
  · simp [natDigitsAux, h10]
  · have hd : n / 10 < n := Nat.div_lt_self (by omega) (by omega)
    simp only [natDigitsAux, if_neg h10]
    rw [natDigitsAux_fuel hd]

theorem natDigits_ne_nil (n : Nat) : natDigits n ≠ [] := by
  rw [natDigits_eq]
  split <;> simp

theorem natDigits_isDigit (n : Nat) : ∀ c ∈ natDigits n, c.isDigit = true := by
  induction n using Nat.strong_induction_on with
  | _ n ih =>
    rw [natDigits_eq]
    by_cases h10 : n < 10
    · simp only [if_pos h10, List.mem_singleton]
      rintro c rfl
      exact isDigit_digitChar n
    · simp only [if_neg h10, List.mem_append, List.mem_singleton]
      rintro c (hc | rfl)
      · exact ih (n / 10) (Nat.div_lt_self (by omega) (by omega)) c hc
      · exact isDigit_digitChar _

theorem digitsVal_append_singleton (ds : List Char) (c : Char) :
    digitsVal (ds ++ [c]) = 10 * digitsVal ds + digitVal c := by
  simp [digitsVal, List.foldl_append, Nat.mul_comm]

theorem digitsVal_natDigits (n : Nat) : digitsVal (natDigits n) = n := by
  induction n using Nat.strong_induction_on with
  | _ n ih =>
    rw [natDigits_eq]
    by_cases h10 : n < 10
    · simp [if_pos h10, digitsVal, digitVal_digitChar h10]
    · rw [if_neg h10, digitsVal_append_singleton,
        ih (n / 10) (Nat.div_lt_self (by omega) (by omega)),
        digitVal_digitChar (Nat.mod_lt _ (by omega))]
      omega

/-! ### Length-prefixed serialization primitives -/

def encNat (n : Nat) : List Char := natDigits n ++ ['#']

def parseNat (l : List Char) : Option (Nat × List Char) :=
  match l.takeWhile Char.isDigit, l.dropWhile Char.isDigit with
  | [], _ => none
  | ds, '#' :: r => some (digitsVal ds, r)
  | _, _ => none

theorem parseNat_encNat (n : Nat) (rest : List Char) :
    parseNat (encNat n ++ rest) = some (n, rest) := by
  have htake : (natDigits n ++ '#' :: rest).takeWhile Char.isDigit = natDigits n ++
      ('#' :: rest).takeWhile Char.isDigit :=
    List.takeWhile_append_of_pos (natDigits_isDigit n)
  have hdrop : (natDigits n ++ '#' :: rest).dropWhile Char.isDigit =
      ('#' :: rest).dropWhile Char.isDigit :=
    List.dropWhile_append_of_pos (natDigits_isDigit n)
  have hhash : ('#' : Char).isDigit = false := rfl
  simp only [encNat, List.append_assoc, List.singleton_append, parseNat, htake, hdrop,
    List.takeWhile_cons, hhash, List.dropWhile_cons, Bool.false_eq_true, if_false,
    List.append_nil]
  have hne := natDigits_ne_nil n
  match hnd : natDigits n with
  | [] => exact absurd hnd hne
  | d :: ds => simp [← hnd, digitsVal_natDigits n]

def parseTake (n : Nat) (l : List Char) : Option (List Char × List Char) :=
  if n ≤ l.length then some (l.take n, l.drop n) else none

theorem parseTake_append (cs rest : List Char) :
    parseTake cs.length (cs ++ rest) = some (cs, rest) := by
  simp [parseTake, List.take_left, List.drop_left]

/-! ### JSON values and the serialization layer

`Json` is the universe of deserialized payloads relevant to the token code:
Python dicts with string or number values, and arrays (any non-dict value
behaves like `arr` as far as `validate_token` is concerned: subscripting it
raises `TypeError`).  `encodePayload`/`decodePayload` model the composite
`base64.b64encode(json.dumps(v).encode())` and its inverse
`json.loads(base64.b64decode(s).decode())`; any failure of the real decoder
raises a subclass of `ValueError`, which `validate_token` catches, so decoder
failure is modelled by `none`. -/

inductive JVal where
  | jstr (s : String)
  | jnum (n : Nat)
deriving DecidableEq

inductive Json where
  | obj (fields : List (String × JVal))
  | arr (elems : List JVal)
deriving DecidableEq

def encStr (s : String) : List Char := encNat s.data.length ++ s.data

def parseStr (l : List Char) : Option (String × List Char) :=
  match parseNat l with
  | none => none
  | some (n, r) =>
    match parseTake n r with
    | none => none
    | some (cs, r2) => some (String.mk cs, r2)

theorem parseStr_encStr (s : String) (rest : List Char) :
    parseStr (encStr s ++ rest) = some (s, rest) := by
  simp only [encStr, parseStr, List.append_assoc, parseNat_encNat]
  have h := parseTake_append s.data rest
  rw [h]

def encJVal : JVal → List Char
  | .jstr s => 'S' :: encStr s
  | .jnum n => 'N' :: encNat n

def parseJVal (l : List Char) : Option (JVal × List Char) :=
  match l with
  | 'S' :: r =>
    match parseStr r with
    | none => none
    | some (s, r2) => some (.jstr s, r2)
  | 'N' :: r =>
    match parseNat r with
    | none => none
    | some (n, r2) => some (.jnum n, r2)
  | _ => none

theorem parseJVal_encJVal (v : JVal) (rest : List Char) :
    parseJVal (encJVal v ++ rest) = some (v, rest) := by
  cases v with
  | jstr s => simp [encJVal, parseJVal, parseStr_encStr]
  | jnum n => simp [encJVal, parseJVal, parseNat_encNat]

def encElems : List JVal → List Char
  | [] => []
  | v :: vs => encJVal v ++ encElems vs

def parseElems : Nat → List Char → Option (List JVal × List Char)
  | 0, l => some ([], l)
  | n + 1, l =>
    match parseJVal l with
    | none => none
    | some (v, r) =>
      match parseElems n r with
      | none => none
      | some (vs, r2) => some (v :: vs, r2)

theorem parseElems_encElems (vs : List JVal) (rest : List Char) :
    parseElems vs.length (encElems vs ++ rest) = some (vs, rest) := by
  induction vs generalizing rest with
  | nil => simp [encElems, parseElems]
  | cons v vs ih =>
    simp [encElems, parseElems, List.append_assoc, parseJVal_encJVal, ih]

def encFields : List (String × JVal) → List Char
  | [] => []
  | (k, v) :: fs => encStr k ++ encJVal v ++ encFields fs

def parseFields : Nat → List Char → Option (List (String × JVal) × List Char)
  | 0, l => some ([], l)
  | n + 1, l =>
    match parseStr l with
    | none => none
    | some (k, r) =>
      match parseJVal r with
      | none => none
      | some (v, r2) =>
        match parseFields n r2 with
        | none => none
        | some (fs, r3) => some ((k, v) :: fs, r3)

theorem parseFields_encFields (fs : List (String × JVal)) (rest : List Char) :
    parseFields fs.length (encFields fs ++ rest) = some (fs, rest) := by
  induction fs generalizing rest with
  | nil => simp [encFields, parseFields]
  | cons kv fs ih =>
    obtain ⟨k, v⟩ := kv
    simp [encFields, parseFields, List.append_assoc, parseStr_encStr, parseJVal_encJVal, ih]

def encJson : Json → List Char
  | .obj fs => 'O' :: encNat fs.length ++ encFields fs
  | .arr vs => 'A' :: encNat vs.length ++ encElems vs

def parseJson (l : List Char) : Option (Json × List Char) :=
  match l with
  | 'O' :: r =>
    match parseNat r with
    | none => none
    | some (n, r2) =>
      match parseFields n r2 with
      | none => none
      | some (fs, r3) => some (.obj fs, r3)
  | 'A' :: r =>
    match parseNat r with
    | none => none
    | some (n, r2) =>
      match parseElems n r2 with
      | none => none
      | some (vs, r3) => some (.arr vs, r3)
  | _ => none

theorem parseJson_encJson (j : Json) (rest : List Char) :
    parseJson (encJson j ++ rest) = some (j, rest) := by
  cases j with
  | obj fs =>
    simp [encJson, parseJson, List.append_assoc, parseNat_encNat, parseFields_encFields]
  | arr vs =>
    simp [encJson, parseJson, List.append_assoc, parseNat_encNat, parseElems_encElems]

def encodePayload (j : Json) : String := String.mk (encJson j)

def decodePayload (s : String) : Option Json :=
  match parseJson s.data with
  | some (j, []) => some j
  | _ => none

theorem decodePayload_encodePayload (j : Json) : decodePayload (encodePayload j) = some j := by
  have h := parseJson_encJson j []
  simp only [List.append_nil] at h
  simp [decodePayload, encodePayload, h]

/-! ### Timestamps

Model of `datetime.isoformat` / `datetime.fromisoformat` on second counts: an
injective printer and its partial inverse.  A `ValueError` of the real
`fromisoformat` (caught by `validate_token`) is modelled by `none`. -/

def isoformat (t : Nat) : String := String.mk (natDigits t)

def fromisoformat (s : String) : Option Nat :=
  if s.data ≠ [] ∧ ∀ c ∈ s.data, c.isDigit = true then some (digitsVal s.data) else none

theorem fromisoformat_isoformat (t : Nat) : fromisoformat (isoformat t) = some t := by
  simp only [fromisoformat, isoformat]
  rw [if_pos ⟨natDigits_ne_nil t, natDigits_isDigit t⟩, digitsVal_natDigits]

/-! ### The active-token registry

`active_tokens` is a Python dict from token strings to
`{"username": ..., "expires_at": ...}`; modelled as an association list.
`insertReg` models dict assignment, `eraseReg` models `del`, `lookupReg`
models subscription/membership. -/

structure TokenInfo where
  username : String
  expires_at : Nat
deriving DecidableEq

abbrev Registry := List (String × TokenInfo)

def lookupReg : Registry → String → Option TokenInfo
  | [], _ => none
  | (k, v) :: r, t => if k = t then some v else lookupReg r t

def eraseReg : Registry → String → Registry
  | [], _ => []
  | (k, v) :: r, t => if k = t then eraseReg r t else (k, v) :: eraseReg r t

def insertReg (reg : Registry) (k : String) (v : TokenInfo) : Registry :=
  eraseReg reg k ++ [(k, v)]

theorem mem_eraseReg {reg : Registry} {k : String} {p : String × TokenInfo}
    (h : p ∈ eraseReg reg k) : p ∈ reg := by
  induction reg with
  | nil => simp [eraseReg] at h
  | cons q r ih =>
    obtain ⟨k', v'⟩ := q
    simp only [eraseReg] at h
    split at h
    · exact List.mem_cons_of_mem _ (ih h)
    · rcases List.mem_cons.1 h with rfl | h2
      · exact List.mem_cons_self _ _
      · exact List.mem_cons_of_mem _ (ih h2)

theorem lookup_eraseReg_self (reg : Registry) (k : String) :
    lookupReg (eraseReg reg k) k = none := by
  induction reg with
  | nil => rfl
  | cons q r ih =>
    obtain ⟨k', v'⟩ := q
    simp only [eraseReg]
    split
    · exact ih
    · next hne => simp [lookupReg, hne, ih]

theorem lookup_eraseReg_ne (reg : Registry) {k k' : String} (h : k' ≠ k) :
    lookupReg (eraseReg reg k) k' = lookupReg reg k' := by
  induction reg with
  | nil => rfl
  | cons q r ih =>
    obtain ⟨k2, v2⟩ := q
    simp only [eraseReg, lookupReg]
    split
    · next hk =>
      subst hk
      have hne2 : ¬ k2 = k' := fun hx => h hx.symm
      simp [lookupReg, hne2, ih]
    · simp only [lookupReg, ih]

theorem eraseReg_of_lookup_none {reg : Registry} {k : String} (h : lookupReg reg k = none) :
    eraseReg reg k = reg := by
  induction reg with
  | nil => rfl
  | cons q r ih =>
    obtain ⟨k2, v2⟩ := q
    simp only [lookupReg] at h
    split at h
    · exact absurd h (by simp)
    · next hne => simp [eraseReg, hne, ih h]

theorem lookup_some_mem {reg : Registry} {k : String} {v : TokenInfo}
    (h : lookupReg reg k = some v) : (k, v) ∈ reg := by
  induction reg with
  | nil => simp [lookupReg] at h
  | cons q r ih =>
    obtain ⟨k2, v2⟩ := q
    simp only [lookupReg] at h
    split at h
    · next hk => subst hk; cases h; exact List.mem_cons_self _ _
    · exact List.mem_cons_of_mem _ (ih h)

theorem lookup_insertReg_self (reg : Registry) (k : String) (v : TokenInfo) :
    lookupReg (insertReg reg k v) k = some v := by
  unfold insertReg
  induction reg with
  | nil => simp [eraseReg, lookupReg]
  | cons q rr ih =>
    obtain ⟨k2, v2⟩ := q
    simp only [eraseReg]
    split
    · exact ih
    · next hne =>
      rw [List.cons_append]
      simp only [lookupReg, if_neg hne]
      exact ih

theorem mem_insertReg {reg : Registry} {k : String} {v : TokenInfo} {p : String × TokenInfo}
    (h : p ∈ insertReg reg k v) : p ∈ reg ∨ p = (k, v) := by
  rcases List.mem_append.1 h with h1 | h2
  · exact Or.inl (mem_eraseReg h1)
  · exact Or.inr (List.mem_singleton.1 h2)

/-! ### Signature and token splitting -/

/-- The hard-coded signing secret embedded in the source. -/
def secret_key : String := "secret_key_for_education"

/-- `hashlib.sha256(f"{payload}secret_key_for_education".encode()).hexdigest()[:16]`,
with the sha256 hex digest abstracted as `hash`. -/
def sign (hash : String → String) (payload : String) : String :=
  String.mk ((hash (payload ++ secret_key)).data.take 16)

/-- `token.rsplit('.', 1)` on the character list: split at the last `'.'`. -/
def rsplit1 (l : List Char) : List Char × List Char :=
  (((l.reverse.dropWhile (fun c => c != '.')).drop 1).reverse,
   (l.reverse.takeWhile (fun c => c != '.')).reverse)

def rsplitDot (t : String) : String × String :=
  (String.mk (rsplit1 t.data).1, String.mk (rsplit1 t.data).2)

theorem rsplit1_append {a b : List Char} (hb : '.' ∉ b) :
    rsplit1 (a ++ '.' :: b) = (a, b) := by
  have hrev : (a ++ '.' :: b).reverse = b.reverse ++ '.' :: a.reverse := by
    simp
  have hball : ∀ c ∈ b.reverse, (c != '.') = true := by
    intro c hc
    have : c ∈ b := List.mem_reverse.1 hc
    simp only [bne_iff_ne, ne_eq]
    rintro rfl
    exact hb this
  have hdotfalse : (('.' : Char) != '.') = false := by simp
  unfold rsplit1
  rw [hrev, List.takeWhile_append_of_pos hball, List.dropWhile_append_of_pos hball]
  simp [List.takeWhile_cons, List.dropWhile_cons, hdotfalse]

theorem rsplitDot_append {a b : String} (hb : '.' ∉ b.data) :
    rsplitDot (a ++ "." ++ b) = (a, b) := by
  have hdata : (a ++ "." ++ b).data = a.data ++ '.' :: b.data := by
    simp [String.data_append]
  simp only [rsplitDot, hdata, rsplit1_append hb]

theorem dot_mem_append (a b : String) : '.' ∈ (a ++ "." ++ b).data := by
  have hdata : (a ++ "." ++ b).data = a.data ++ '.' :: b.data := by
    simp [String.data_append]
  rw [hdata]
  exact List.mem_append.2 (Or.inr (List.mem_cons_self _ _))

/-! ### Embedded server code (`auth_server_fastapi.py`) -/

/-- `ACCESS_TOKEN_EXPIRE_MINUTES = 30` (line 37). -/
def ACCESS_TOKEN_EXPIRE_MINUTES : Nat := 30

/-- Uncaught Python exceptions of the modelled code. -/
inductive PyErr where
  | typeError
deriving DecidableEq

/-- `simple_hash` (lines 86-88): full sha256 hex digest of the password. -/
def simple_hash (hash : String → String) (password : String) : String := hash password

/-- `verify_password` (lines 91-93). -/
def verify_password (hash : String → String) (plain_password hashed_password : String) : Bool :=
  simple_hash hash plain_password == hashed_password

/-- The dict payload built by `create_simple_token` (lines 100-105): username,
`created_at` from a first `datetime.now()` call, `expires_at` from a second
`datetime.now()` call plus the TTL, and the random nonce. -/
def tokenJson (username : String) (created expires : Nat) (nonce : String) : Json :=
  .obj [("username", .jstr username), ("created_at", .jstr (isoformat created)),
        ("expires_at", .jstr (isoformat expires)), ("random", .jstr nonce)]

/-- `create_simple_token` (lines 97-116).  `now1` and `now2` are the values of
the two successive `datetime.now()` calls on lines 102 and 103; `nonce` is the
value of `secrets.token_hex(16)`.  Returns the token string and the parsed-back
expiry, like the source (line 115 re-parses `token_data["expires_at"]`; the
`getD` arm is unreachable, see `create_simple_token_expiry`). -/
def create_simple_token (hash : String → String) (now1 now2 : Nat) (nonce username : String) :
    String × Nat :=
  let expires := now2 + ACCESS_TOKEN_EXPIRE_MINUTES * 60
  let token_bytes := encodePayload (tokenJson username now1 expires nonce)
  let signature := sign hash token_bytes
  (token_bytes ++ "." ++ signature, (fromisoformat (isoformat expires)).getD 0)

/-- Lookup in a deserialized JSON object; later duplicate keys overwrite
earlier ones, as in a Python dict built by `json.loads`. -/
def fieldGet : List (String × JVal) → String → Option JVal
  | [], _ => none
  | (k, v) :: fs, t =>
    match fieldGet fs t with
    | some w => some w
    | none => if k = t then some v else none

/-- `validate_token` (lines 119-149).  `.ok none` is `return None` (including
every exception caught by the `except (ValueError, KeyError,
json.JSONDecodeError)` clause); `.ok (some u)` is `return
token_data["username"]`; `.error .typeError` is an uncaught `TypeError`
(subscripting a non-dict payload, or `fromisoformat` applied to a non-string
field), which that clause does not catch. -/
def validate_token (hash : String → String) (now : Nat) (reg : Registry) (token : String) :
    Except PyErr (Option JVal) :=
  if '.' ∈ token.data then
    let parts := rsplitDot token
    if parts.2 = sign hash parts.1 then
      match decodePayload parts.1 with
      | none => .ok none
      | some (.arr _) => .error .typeError
      | some (.obj fields) =>
        match fieldGet fields "expires_at" with
        | none => .ok none
        | some (.jnum _) => .error .typeError
        | some (.jstr es) =>
          match fromisoformat es with
          | none => .ok none
          | some expires =>
            if now > expires then .ok none
            else if (lookupReg reg token).isNone then .ok none
            else
              match fieldGet fields "username" with
              | none => .ok none
              | some u => .ok (some u)
    else .ok none
  else .ok none

/-- The outcome taxonomy of the specification's `validate` (spec section 4.1),
as an observable refinement of `validate_token`: same checks in the same
order, but remembering which step failed instead of collapsing to `None`. -/
inductive VOutcome where
  | malformed
  | badSignature
  | typeErr
  | keyMissing
  | expired
  | revoked
  | ok (u : JVal)
deriving DecidableEq

/-- `validate_token` with the failing step made observable. -/
def validateVerbose (hash : String → String) (now : Nat) (reg : Registry) (token : String) :
    VOutcome :=
  if '.' ∈ token.data then
    let parts := rsplitDot token
    if parts.2 = sign hash parts.1 then
      match decodePayload parts.1 with
      | none => .malformed
      | some (.arr _) => .typeErr
      | some (.obj fields) =>
        match fieldGet fields "expires_at" with
        | none => .keyMissing
        | some (.jnum _) => .typeErr
        | some (.jstr es) =>
          match fromisoformat es with
          | none => .malformed
          | some expires =>
            if now > expires then .expired
            else if (lookupReg reg token).isNone then .revoked
            else
              match fieldGet fields "username" with
              | none => .keyMissing
              | some u => .ok u
    else .badSignature
  else .malformed

/-- How each verbose outcome surfaces in the source: everything but an
uncaught `TypeError` collapses to `return None`. -/
def vErase : VOutcome → Except PyErr (Option JVal)
  | .malformed => .ok none
  | .badSignature => .ok none
  | .typeErr => .error .typeError
  | .keyMissing => .ok none
  | .expired => .ok none
  | .revoked => .ok none
  | .ok u => .ok (some u)

theorem validate_token_eq_vErase (hash : String → String) (now : Nat) (reg : Registry)
    (token : String) :
    validate_token hash now reg token = vErase (validateVerbose hash now reg token) := by
  simp only [validate_token, validateVerbose]
  repeat' first | rfl | split

/-! ### Credential store and endpoints -/

structure UserRec where
  id : Nat
  username : String
  email : String
  full_name : String
  hashed_password : String
deriving DecidableEq

/-- `fake_users_db` (lines 153-168), parameterized by the sha256 model. -/
def fake_users_db (hash : String → String) : List (String × UserRec) :=
  [("student", ⟨1, "student", "student@example.com", "Student User",
      simple_hash hash "password123"⟩),
   ("teacher", ⟨2, "teacher", "teacher@example.com", "Teacher User",
      simple_hash hash "secret456"⟩)]

def userGet : List (String × UserRec) → String → Option UserRec
  | [], _ => none
  | (k, v) :: r, t => if k = t then some v else userGet r t

/-- `get_user` (lines 189-194). -/
def get_user (hash : String → String) (username : String) : Option UserRec :=
  userGet (fake_users_db hash) username

/-- `authenticate_user` (lines 197-204); Python's `False` becomes `none`. -/
def authenticate_user (hash : String → String) (username password : String) : Option UserRec :=
  match get_user hash username with
  | none => none
  | some user => if verify_password hash password user.hashed_password then some user else none

/-- `HTTPException` as surfaced to the caller: status code and detail. -/
structure HTTPErr where
  status_code : Nat
  detail : String
deriving DecidableEq

/-- The `Token` response model (lines 59-62). -/
structure TokenResponse where
  access_token : String
  token_type : String
  expires_in : Nat
deriving DecidableEq

/-- `login` (lines 243-273): authenticate, mint a token, insert it into
`active_tokens`, return the response.  The pair's second component is the
`active_tokens` dict after the request. -/
def login (hash : String → String) (now1 now2 : Nat) (nonce : String) (reg : Registry)
    (username password : String) : Except HTTPErr TokenResponse × Registry :=
  match authenticate_user hash username password with
  | none => (.error ⟨401, "Incorrect username or password"⟩, reg)
  | some user =>
    let tk := create_simple_token hash now1 now2 nonce user.username
    (.ok ⟨tk.1, "bearer", ACCESS_TOKEN_EXPIRE_MINUTES * 60⟩,
     insertReg reg tk.1 ⟨user.username, tk.2⟩)

/-- The registry mutation performed by `logout` (lines 282-284): remove the
presented token from `active_tokens` if present.  (The endpoint's
authentication dependency is the separate authenticated-request gate and is
not part of the revocation operation itself.)  Total: no code path raises. -/
def logoutRevoke (reg : Registry) (token : String) : Registry :=
  if (lookupReg reg token).isSome then eraseReg reg token else reg

/-- The expired-token cleanup block of `get_active_tokens` (lines 354-360):
collect the keys whose expiry has passed, then delete each. -/
def purge_expired (now : Nat) (reg : Registry) : Registry :=
  let expired := (reg.filter (fun p => decide (now > p.2.expires_at))).map Prod.fst
  expired.foldl eraseReg reg

/-! ### Observables of a token string

Specification-side views of a token: its signature condition and the data
encoded in its payload, defined by the same parsing the server performs but
independently of `validate_token`'s control flow. -/

/-- The supplied signature segment matches the signature recomputed over the
payload segment with the shared secret (condition (a) of the spec's validity
invariant; it includes the existence of a separator, without which there is
no signature segment). -/
def sigOKb (hash : String → String) (t : String) : Bool :=
  decide ('.' ∈ t.data) && decide ((rsplitDot t).2 = sign hash (rsplitDot t).1)

/-- The expiry encoded in the payload segment, when one is encoded. -/
def payloadExpiry (t : String) : Option Nat :=
  match decodePayload (rsplitDot t).1 with
  | some (.obj fields) =>
    match fieldGet fields "expires_at" with
    | some (.jstr es) => fromisoformat es
    | _ => none
  | _ => none

/-- The username and expiry encoded in the payload segment. -/
def tokenData (t : String) : Option (String × Nat) :=
  match decodePayload (rsplitDot t).1 with
  | some (.obj fields) =>
    match fieldGet fields "username", fieldGet fields "expires_at" with
    | some (.jstr u), some (.jstr es) =>
      match fromisoformat es with
      | some e => some (u, e)
      | none => none
    | _, _ => none
  | _ => none

/-- The issuance and expiry timestamps encoded in the payload segment. -/
def tokenCreatedExpiry (t : String) : Option (Nat × Nat) :=
  match decodePayload (rsplitDot t).1 with
  | some (.obj fields) =>
    match fieldGet fields "created_at", fieldGet fields "expires_at" with
    | some (.jstr cs), some (.jstr es) =>
      match fromisoformat cs, fromisoformat es with
      | some c, some e => some (c, e)
      | _, _ => none
    | _, _ => none
  | _ => none

/-! ### Computation lemmas about freshly created tokens -/

theorem create_simple_token_eq (hash : String → String) (now1 now2 : Nat) (nonce username : String) :
    create_simple_token hash now1 now2 nonce username =
      (encodePayload (tokenJson username now1 (now2 + ACCESS_TOKEN_EXPIRE_MINUTES * 60) nonce)
         ++ "." ++
         sign hash (encodePayload (tokenJson username now1 (now2 + ACCESS_TOKEN_EXPIRE_MINUTES * 60) nonce)),
       now2 + ACCESS_TOKEN_EXPIRE_MINUTES * 60) := by
  simp [create_simple_token, fromisoformat_isoformat]

theorem create_simple_token_expiry (hash : String → String) (now1 now2 : Nat)
    (nonce username : String) :
    (create_simple_token hash now1 now2 nonce username).2 =
      now2 + ACCESS_TOKEN_EXPIRE_MINUTES * 60 := by
  rw [create_simple_token_eq]

theorem sign_no_dot {hash : String → String} (Hdot : ∀ s, '.' ∉ (hash s).data) (p : String) :
    '.' ∉ (sign hash p).data := by
  intro hmem
  exact Hdot _ (List.mem_of_mem_take hmem)

theorem rsplitDot_create {hash : String → String} (Hdot : ∀ s, '.' ∉ (hash s).data)
    (now1 now2 : Nat) (nonce username : String) :
    rsplitDot (create_simple_token hash now1 now2 nonce username).1 =
      (encodePayload (tokenJson username now1 (now2 + ACCESS_TOKEN_EXPIRE_MINUTES * 60) nonce),
       sign hash (encodePayload (tokenJson username now1 (now2 + ACCESS_TOKEN_EXPIRE_MINUTES * 60) nonce))) := by
  rw [create_simple_token_eq]
  exact rsplitDot_append (sign_no_dot Hdot _)

theorem fieldGet_tokenJson_username (username : String) (created expires : Nat) (nonce : String) :
    fieldGet [("username", JVal.jstr username), ("created_at", JVal.jstr (isoformat created)),
      ("expires_at", JVal.jstr (isoformat expires)), ("random", JVal.jstr nonce)] "username" =
      some (.jstr username) := rfl

theorem fieldGet_tokenJson_created (username : String) (created expires : Nat) (nonce : String) :
    fieldGet [("username", JVal.jstr username), ("created_at", JVal.jstr (isoformat created)),
      ("expires_at", JVal.jstr (isoformat expires)), ("random", JVal.jstr nonce)] "created_at" =
      some (.jstr (isoformat created)) := rfl

theorem fieldGet_tokenJson_expires (username : String) (created expires : Nat) (nonce : String) :
    fieldGet [("username", JVal.jstr username), ("created_at", JVal.jstr (isoformat created)),
      ("expires_at", JVal.jstr (isoformat expires)), ("random", JVal.jstr nonce)] "expires_at" =
      some (.jstr (isoformat expires)) := rfl

theorem tokenData_create {hash : String → String} (Hdot : ∀ s, '.' ∉ (hash s).data)
    (now1 now2 : Nat) (nonce username : String) :
    tokenData (create_simple_token hash now1 now2 nonce username).1 =
      some (username, now2 + ACCESS_TOKEN_EXPIRE_MINUTES * 60) := by
  rw [tokenData, rsplitDot_create Hdot]
  simp only [decodePayload_encodePayload, tokenJson, fieldGet_tokenJson_username,
    fieldGet_tokenJson_expires, fromisoformat_isoformat]

theorem tokenCreatedExpiry_create {hash : String → String} (Hdot : ∀ s, '.' ∉ (hash s).data)
    (now1 now2 : Nat) (nonce username : String) :
    tokenCreatedExpiry (create_simple_token hash now1 now2 nonce username).1 =
      some (now1, now2 + ACCESS_TOKEN_EXPIRE_MINUTES * 60) := by
  rw [tokenCreatedExpiry, rsplitDot_create Hdot]
  simp only [decodePayload_encodePayload, tokenJson, fieldGet_tokenJson_created,
    fieldGet_tokenJson_expires, fromisoformat_isoformat]

theorem payloadExpiry_create {hash : String → String} (Hdot : ∀ s, '.' ∉ (hash s).data)
    (now1 now2 : Nat) (nonce username : String) :
    payloadExpiry (create_simple_token hash now1 now2 nonce username).1 =
      some (now2 + ACCESS_TOKEN_EXPIRE_MINUTES * 60) := by
  rw [payloadExpiry, rsplitDot_create Hdot]
  simp only [decodePayload_encodePayload, tokenJson, fieldGet_tokenJson_expires,
    fromisoformat_isoformat]

theorem validate_token_create {hash : String → String} (Hdot : ∀ s, '.' ∉ (hash s).data)
    (now now1 now2 : Nat) (nonce username : String) (reg : Registry)
    (hexp : ¬ now > now2 + ACCESS_TOKEN_EXPIRE_MINUTES * 60)
    (hreg : (lookupReg reg (create_simple_token hash now1 now2 nonce username).1).isNone = false) :
    validate_token hash now reg (create_simple_token hash now1 now2 nonce username).1 =
      .ok (some (.jstr username)) := by
  have hdotmem : '.' ∈ ((create_simple_token hash now1 now2 nonce username).1).data := by
    have h1 : (create_simple_token hash now1 now2 nonce username).1 =
        encodePayload (tokenJson username now1 (now2 + ACCESS_TOKEN_EXPIRE_MINUTES * 60) nonce)
          ++ "." ++
          sign hash (encodePayload (tokenJson username now1 (now2 + ACCESS_TOKEN_EXPIRE_MINUTES * 60) nonce)) := by
      rw [create_simple_token_eq]
    rw [h1]
    exact dot_mem_append _ _
  simp only [validate_token, rsplitDot_create Hdot, if_pos hdotmem,
    decodePayload_encodePayload, tokenJson, fieldGet_tokenJson_expires,
    fieldGet_tokenJson_username, fromisoformat_isoformat, if_neg hexp, hreg,
    Bool.false_eq_true, if_false, if_true]

/-! ### Reachable registry states and the well-formedness invariant -/

/-- A registry entry is well formed when its key is exactly a token minted by
`create_simple_token` for the stored username, and the stored expiry is the
expiry encoded in that token's payload. -/
def entryWF (hash : String → String) (t : String) (info : TokenInfo) : Prop :=
  ∃ now1 now2 nonce, t = (create_simple_token hash now1 now2 nonce info.username).1 ∧
    info.expires_at = now2 + ACCESS_TOKEN_EXPIRE_MINUTES * 60

def RegWF (hash : String → String) (reg : Registry) : Prop :=
  ∀ p ∈ reg, entryWF hash p.1 p.2

/-- Registry states reachable by the server's operations: the empty initial
dict, a `login` request (with arbitrary clock readings, nonce and
credentials), the `logout` revocation, and the admin-endpoint purge. -/
inductive Reachable (hash : String → String) : Registry → Prop where
  | init : Reachable hash []
  | login_step (reg : Registry) (now1 now2 : Nat) (nonce username password : String)
      (h : Reachable hash reg) :
      Reachable hash (login hash now1 now2 nonce reg username password).2
  | logout_step (reg : Registry) (token : String) (h : Reachable hash reg) :
      Reachable hash (logoutRevoke reg token)
  | purge_step (reg : Registry) (now : Nat) (h : Reachable hash reg) :
      Reachable hash (purge_expired now reg)

theorem mem_foldl_eraseReg {p : String × TokenInfo} :
    ∀ (ks : List String) (reg : Registry), p ∈ List.foldl eraseReg reg ks → p ∈ reg := by
  intro ks
  induction ks with
  | nil => intro reg h; exact h
  | cons k ks ih =>
    intro reg h
    exact mem_eraseReg (ih (eraseReg reg k) h)

theorem reachable_wf {hash : String → String} {reg : Registry} (h : Reachable hash reg) :
    RegWF hash reg := by
  induction h with
  | init => intro p hp; simp at hp
  | login_step reg now1 now2 nonce username password h ih =>
    intro p hp
    unfold login at hp
    cases hau : authenticate_user hash username password with
    | none => rw [hau] at hp; exact ih p hp
    | some user =>
      rw [hau] at hp
      simp only at hp
      rcases mem_insertReg hp with hmem | rfl
      · exact ih p hmem
      · exact ⟨now1, now2, nonce, rfl, (create_simple_token_expiry hash now1 now2 nonce _).symm ▸ rfl⟩
  | logout_step reg token h ih =>
    intro p hp
    unfold logoutRevoke at hp
    split at hp
    · exact ih p (mem_eraseReg hp)
    · exact ih p hp
  | purge_step reg now h ih =>
    intro p hp
    exact ih p (mem_foldl_eraseReg _ _ hp)

/-! ### Purge as a filter -/

def nodupKeys (reg : Registry) : Prop := (reg.map Prod.fst).Nodup

theorem eraseReg_eq_filter (reg : Registry) (k : String) :
    eraseReg reg k = reg.filter (fun p => decide (¬ p.1 = k)) := by
  induction reg with
  | nil => rfl
  | cons q r ih =>
    obtain ⟨k2, v2⟩ := q
    by_cases hk : k2 = k
    · simp [eraseReg, hk, List.filter_cons, ih]
    · simp [eraseReg, hk, List.filter_cons, ih]

theorem foldl_eraseReg_eq_filter :
    ∀ (ks : List String) (reg : Registry),
      List.foldl eraseReg reg ks = reg.filter (fun p => decide (p.1 ∉ ks)) := by
  intro ks
  induction ks with
  | nil =>
    intro reg
    simp
  | cons k ks ih =>
    intro reg
    rw [List.foldl_cons, ih, eraseReg_eq_filter, List.filter_filter]
    have hpred : ∀ a : String × TokenInfo,
        (decide (a.1 ∉ ks) && decide (¬ a.1 = k)) = decide (a.1 ∉ k :: ks) := by
      intro a
      by_cases h1 : a.1 = k <;> by_cases h2 : a.1 ∈ ks <;> simp [h1, h2, List.mem_cons]
    simp only [hpred]

theorem key_inj {reg : Registry} (h : nodupKeys reg) {p q : String × TokenInfo}
    (hp : p ∈ reg) (hq : q ∈ reg) (hk : p.1 = q.1) : p = q := by
  induction reg with
  | nil => simp at hp
  | cons r rs ih =>
    rw [nodupKeys, List.map_cons, List.nodup_cons] at h
    rcases List.mem_cons.1 hp with rfl | hp2 <;> rcases List.mem_cons.1 hq with rfl | hq2
    · rfl
    · exact absurd (hk ▸ List.mem_map_of_mem Prod.fst hq2) h.1
    · exact absurd (hk ▸ List.mem_map_of_mem Prod.fst hp2) h.1
    · exact ih h.2 hp2 hq2

theorem purge_expired_eq_filter (now : Nat) (reg : Registry) (h : nodupKeys reg) :
    purge_expired now reg = reg.filter (fun p => decide (¬ now > p.2.expires_at)) := by
  unfold purge_expired
  rw [foldl_eraseReg_eq_filter]
  apply List.filter_congr
  intro p hp
  rw [decide_eq_decide]
  constructor
  · intro hnotin hgt
    exact hnotin (List.mem_map_of_mem Prod.fst (List.mem_filter.2 ⟨hp, by simp [hgt]⟩))
  · intro hne hin
    rcases List.mem_map.1 hin with ⟨q, hqmem, hq1⟩
    have hqreg := List.mem_filter.1 hqmem
    have hqp : q = p := key_inj h hqreg.1 hp hq1
    subst hqp
    exact hne (by simpa using hqreg.2)

theorem purge_expired_of_no_expired (now : Nat) (reg : Registry)
    (h : reg.filter (fun p => decide (now > p.2.expires_at)) = []) :
    purge_expired now reg = reg := by
  unfold purge_expired
  rw [h]
  rfl

/-! ### Concrete stand-ins for the sha256 hex digest, used by the closed
witnesses below.  Both return 64-character hex-like strings without `'.'`,
the two interface facts of `hexdigest` the theorems assume. -/

def toyHash : String → String :=
  fun _ => "aaaaaaaaaaaaaaaaaaaaaaaaaaaaaaaaaaaaaaaaaaaaaaaaaaaaaaaaaaaaaaaa"

def toyHashB : String → String :=
  fun s =>
    if s = "password123" then "aaaaaaaaaaaaaaaaaaaaaaaaaaaaaaaaaaaaaaaaaaaaaaaaaaaaaaaaaaaaaaaa"
    else "bbbbbbbbbbbbbbbbbbbbbbbbbbbbbbbbbbbbbbbbbbbbbbbbbbbbbbbbbbbbbbbb"

theorem toyHash_no_dot : ∀ s, '.' ∉ (toyHash s).data := by
  intro s
  unfold toyHash
  decide

theorem toyHash_len : ∀ s, (toyHash s).data.length = 64 := by
  intro s
  unfold toyHash
  decide

/-! ### Claim theorems -/

/-- C2: `validate_token` performs its checks in the spec's fixed order,
short-circuiting on the first failure: (1) without a separator the token is
Malformed; (2) with a separator but a signature mismatch it is BadSignature,
regardless of the payload's content; (3) with a matching signature but an
undecodable payload it is Malformed; (4) with a decodable expiry that has
passed it is Expired; (5) unexpired but absent from the registry it is
Revoked.  The first conjunct ties the tagged outcomes back to the source's
own return values, so the signature check (step 2) happens before any field
inside the payload is read. -/
theorem validate_token_checks_in_order (hash : String → String) (now : Nat) (reg : Registry)
    (t : String) :
    (validate_token hash now reg t = vErase (validateVerbose hash now reg t)) ∧
    ('.' ∉ t.data → validateVerbose hash now reg t = .malformed) ∧
    ('.' ∈ t.data → (rsplitDot t).2 ≠ sign hash (rsplitDot t).1 →
      validateVerbose hash now reg t = .badSignature) ∧
    ('.' ∈ t.data → (rsplitDot t).2 = sign hash (rsplitDot t).1 →
      decodePayload (rsplitDot t).1 = none → validateVerbose hash now reg t = .malformed) ∧
    (∀ e, '.' ∈ t.data → (rsplitDot t).2 = sign hash (rsplitDot t).1 →
      payloadExpiry t = some e → now > e → validateVerbose hash now reg t = .expired) ∧
    (∀ e, '.' ∈ t.data → (rsplitDot t).2 = sign hash (rsplitDot t).1 →
      payloadExpiry t = some e → ¬ now > e → lookupReg reg t = none →
      validateVerbose hash now reg t = .revoked) := by
  refine ⟨validate_token_eq_vErase hash now reg t, ?_, ?_, ?_, ?_, ?_⟩
  · intro hd
    simp only [validateVerbose, if_neg hd]
  · intro hd hs
    simp only [validateVerbose, if_pos hd, if_neg hs]
  · intro hd hs hdec
    simp only [validateVerbose, if_pos hd, if_pos hs, hdec]
  · intro e hd hs hpe hgt
    rw [payloadExpiry] at hpe
    cases hdec : decodePayload (rsplitDot t).1 with
    | none => rw [hdec] at hpe; simp at hpe
    | some j =>
      cases j with
      | arr elems => rw [hdec] at hpe; simp at hpe
      | obj fields =>
        simp only [hdec] at hpe
        cases hfg : fieldGet fields "expires_at" with
        | none => simp [hfg] at hpe
        | some v =>
          cases v with
          | jnum n => simp [hfg] at hpe
          | jstr es =>
            simp only [hfg] at hpe
            simp only [validateVerbose, if_pos hd, if_pos hs, hdec, hfg, hpe, if_pos hgt]
  · intro e hd hs hpe hne hlk
    rw [payloadExpiry] at hpe
    cases hdec : decodePayload (rsplitDot t).1 with
    | none => rw [hdec] at hpe; simp at hpe
    | some j =>
      cases j with
      | arr elems => rw [hdec] at hpe; simp at hpe
      | obj fields =>
        simp only [hdec] at hpe
        cases hfg : fieldGet fields "expires_at" with
        | none => simp [hfg] at hpe
        | some v =>
          cases v with
          | jnum n => simp [hfg] at hpe
          | jstr es =>
            simp only [hfg] at hpe
            simp only [validateVerbose, if_pos hd, if_pos hs, hdec, hfg, hpe, if_neg hne,
              hlk, Option.isNone_none, if_true]

/-- Witness for C2: a token without a separator falls into the Malformed arm
of step 1, by the theorem applied at a concrete input. -/
theorem validate_token_checks_in_order_witness :
    validateVerbose toyHash 0 [] "abc" = .malformed :=
  (validate_token_checks_in_order toyHash 0 [] "abc").2.1 (by decide)

/-- Condition (b) of the spec's validity invariant: an expiry is encoded in
the payload and it has not passed the current time. -/
def unexpiredB (now : Nat) (t : String) : Bool :=
  match payloadExpiry t with
  | some e => decide (¬ now > e)
  | none => false

/-- The Python call returned a username (rather than `None` or an uncaught
exception). -/
def succeeds : Except PyErr (Option JVal) → Bool
  | .ok (some _) => true
  | _ => false

/-- C1: over every reachable registry state, `validate_token` succeeds
(returns a username) exactly when all three conditions hold: the recomputed
signature matches the supplied signature segment, the expiry encoded in the
payload has not passed, and the token string is present in the active-token
registry; the failure of any single condition makes it reject. -/
theorem validate_token_iff (hash : String → String) (Hdot : ∀ s, '.' ∉ (hash s).data)
    (reg : Registry) (hreach : Reachable hash reg) (now : Nat) (t : String) :
    succeeds (validate_token hash now reg t) =
      (sigOKb hash t && unexpiredB now t && (lookupReg reg t).isSome) := by
  by_cases hd : '.' ∈ t.data
  · by_cases hs : (rsplitDot t).2 = sign hash (rsplitDot t).1
    · simp only [validate_token, if_pos hd, if_pos hs]
      cases hdec : decodePayload (rsplitDot t).1 with
      | none => simp [succeeds, sigOKb, unexpiredB, payloadExpiry, hd, hs, hdec]
      | some j =>
        cases j with
        | arr elems => simp [succeeds, sigOKb, unexpiredB, payloadExpiry, hd, hs, hdec]
        | obj fields =>
          cases hfg : fieldGet fields "expires_at" with
          | none => simp [succeeds, sigOKb, unexpiredB, payloadExpiry, hd, hs, hdec, hfg]
          | some v =>
            cases v with
            | jnum n => simp [succeeds, sigOKb, unexpiredB, payloadExpiry, hd, hs, hdec, hfg]
            | jstr es =>
              cases hiso : fromisoformat es with
              | none => simp [succeeds, sigOKb, unexpiredB, payloadExpiry, hd, hs, hdec, hfg, hiso]
              | some e =>
                by_cases hgt : now > e
                · simp [succeeds, sigOKb, unexpiredB, payloadExpiry, hd, hs, hdec, hfg, hiso, hgt]
                · cases ho : lookupReg reg t with
                  | none =>
                    simp [succeeds, sigOKb, unexpiredB, payloadExpiry, hd, hs, hdec, hfg, hiso,
                      hgt, ho]
                  | some info =>
                    cases hfu : fieldGet fields "username" with
                    | some u =>
                      simp [succeeds, sigOKb, unexpiredB, payloadExpiry, hd, hs, hdec, hfg,
                        hiso, hgt, ho, hfu]
                    | none =>
                      exfalso
                      have hwf : entryWF hash t info :=
                        reachable_wf hreach (t, info) (lookup_some_mem ho)
                      obtain ⟨n1, n2, nc, ht, hei⟩ := hwf
                      rw [ht, rsplitDot_create Hdot] at hdec
                      rw [decodePayload_encodePayload] at hdec
                      have hobj := Option.some.inj hdec
                      rw [tokenJson] at hobj
                      have hfields := (Json.obj.inj hobj).symm
                      rw [hfields] at hfu
                      rw [fieldGet_tokenJson_username] at hfu
                      cases hfu
    · simp [validate_token, succeeds, sigOKb, hd, hs]
  · simp [validate_token, succeeds, sigOKb, hd]

/-- Witness for C1: after one successful login on the empty registry, the
equivalence instantiated at the freshly minted token. -/
theorem validate_token_iff_witness :
    succeeds (validate_token toyHash 0 (login toyHash 0 0 "n" [] "student" "password123").2
        (create_simple_token toyHash 0 0 "n" "student").1) =
      (sigOKb toyHash (create_simple_token toyHash 0 0 "n" "student").1 &&
        unexpiredB 0 (create_simple_token toyHash 0 0 "n" "student").1 &&
        (lookupReg (login toyHash 0 0 "n" [] "student" "password123").2
          (create_simple_token toyHash 0 0 "n" "student").1).isSome) :=
  validate_token_iff toyHash toyHash_no_dot _
    (Reachable.login_step [] 0 0 "n" "student" "password123" Reachable.init) 0 _

theorem authenticate_user_username {hash : String → String} {u p : String} {user : UserRec}
    (h : authenticate_user hash u p = some user) : user.username = u := by
  unfold authenticate_user at h
  cases hg : get_user hash u with
  | none => rw [hg] at h; simp at h
  | some usr =>
    simp only [hg] at h
    have husr : usr = user := by
      cases hv : verify_password hash p usr.hashed_password
      · rw [hv] at h; simp at h
      · rw [hv] at h; simpa using h
    subst husr
    simp only [get_user, fake_users_db, userGet] at hg
    split at hg
    · next h1 => injection hg with hh; subst hh; exact h1
    · split at hg
      · next h2 => injection hg with hh; subst hh; exact h2
      · cases hg

/-- C3: for any credentials the server accepts (in particular every username
of the credential store with its password), a successful `login` — which mints
a token and inserts it into the registry — followed immediately by
`validate_token` on the returned token string yields the original username. -/
theorem issue_then_validate (hash : String → String) (Hdot : ∀ s, '.' ∉ (hash s).data)
    (now : Nat) (nonce : String) (reg : Registry) (username password : String)
    (resp : TokenResponse) (reg2 : Registry)
    (hlogin : login hash now now nonce reg username password = (.ok resp, reg2)) :
    validate_token hash now reg2 resp.access_token = .ok (some (.jstr username)) := by
  unfold login at hlogin
  cases hau : authenticate_user hash username password with
  | none => rw [hau] at hlogin; simp at hlogin
  | some user =>
    rw [hau] at hlogin
    simp only [Prod.mk.injEq] at hlogin
    obtain ⟨hresp, hreg2⟩ := hlogin
    have hresp2 := Except.ok.inj hresp
    subst hresp2
    subst hreg2
    have huser := authenticate_user_username hau
    rw [← huser]
    exact validate_token_create Hdot now now now nonce user.username _ (by omega)
      (by rw [lookup_insertReg_self]; rfl)

set_option maxHeartbeats 1600000 in
/-- Witness for C3: login as `student` on the empty registry at time 0, then
validate the minted token. -/
theorem issue_then_validate_witness :
    validate_token toyHash 0 (login toyHash 0 0 "n" [] "student" "password123").2
      ((⟨(create_simple_token toyHash 0 0 "n" "student").1, "bearer",
        ACCESS_TOKEN_EXPIRE_MINUTES * 60⟩ : TokenResponse).access_token) =
      .ok (some (.jstr "student")) :=
  issue_then_validate toyHash toyHash_no_dot 0 "n" [] "student" "password123"
    ⟨(create_simple_token toyHash 0 0 "n" "student").1, "bearer",
      ACCESS_TOKEN_EXPIRE_MINUTES * 60⟩
    (login toyHash 0 0 "n" [] "student" "password123").2 rfl

/-- C4 counterexample: `create_simple_token` reads the clock twice (lines 102
and 103); if the clock advances by one second between the two reads, the
expiry encoded in the payload is the second reading plus the TTL, which is
not the encoded issuance timestamp plus the TTL. -/
theorem token_expiry_counterexample :
    tokenCreatedExpiry (create_simple_token toyHash 0 1 "n" "alice").1 = some (0, 1801) ∧
    (0 : Nat) + ACCESS_TOKEN_EXPIRE_MINUTES * 60 ≠ 1801 := by
  constructor
  · rw [tokenCreatedExpiry_create toyHash_no_dot]
    rfl
  · decide

/-- C4 (amended): the expiry encoded in an issued token's payload equals the
second clock sample taken inside `create_simple_token` plus the fixed TTL
(30 minutes); it equals the encoded issuance timestamp plus the TTL exactly
when the two clock samples coincide. -/
theorem token_expiry_from_second_clock (hash : String → String)
    (Hdot : ∀ s, '.' ∉ (hash s).data) (now1 now2 : Nat) (nonce username : String) :
    tokenCreatedExpiry (create_simple_token hash now1 now2 nonce username).1 =
      some (now1, now2 + ACCESS_TOKEN_EXPIRE_MINUTES * 60) ∧
    (now1 = now2 →
      tokenCreatedExpiry (create_simple_token hash now1 now2 nonce username).1 =
        some (now1, now1 + ACCESS_TOKEN_EXPIRE_MINUTES * 60)) := by
  refine ⟨tokenCreatedExpiry_create Hdot now1 now2 nonce username, ?_⟩
  rintro rfl
  exact tokenCreatedExpiry_create Hdot now1 now1 nonce username

/-- Witness for C4's amended claim at coincident clock samples. -/
theorem token_expiry_from_second_clock_witness :
    tokenCreatedExpiry (create_simple_token toyHash 5 5 "n" "student").1 =
      some (5, 5 + ACCESS_TOKEN_EXPIRE_MINUTES * 60) :=
  (token_expiry_from_second_clock toyHash toyHash_no_dot 5 5 "n" "student").2 rfl

/-- C5: the logout revocation removes the presented token's registry entry if
present and never errors: on a token absent from the registry it is the
identity, after it the token is no longer registered, entries under every
other key are untouched, and revoking the same token a second time changes
nothing. -/
theorem logout_revoke_props (reg : Registry) (t : String) :
    (lookupReg reg t = none → logoutRevoke reg t = reg) ∧
    lookupReg (logoutRevoke reg t) t = none ∧
    (∀ k, k ≠ t → lookupReg (logoutRevoke reg t) k = lookupReg reg k) ∧
    logoutRevoke (logoutRevoke reg t) t = logoutRevoke reg t := by
  have habsent : ∀ r : Registry, lookupReg r t = none → logoutRevoke r t = r := by
    intro r h
    unfold logoutRevoke
    rw [h]
    rfl
  have hself : lookupReg (logoutRevoke reg t) t = none := by
    unfold logoutRevoke
    split
    · exact lookup_eraseReg_self reg t
    · next h =>
      cases ho : lookupReg reg t with
      | none => rfl
      | some v => rw [ho] at h; simp at h
  refine ⟨habsent reg, hself, ?_, habsent _ hself⟩
  intro k hk
  unfold logoutRevoke
  split
  · exact lookup_eraseReg_ne reg hk
  · rfl

/-- Witness for C5: revoking on the empty registry is the identity, and a
second revocation of a registered token is a no-op. -/
theorem logout_revoke_props_witness :
    logoutRevoke ([] : Registry) "tok" = [] ∧
    logoutRevoke (logoutRevoke [("tok", ⟨"student", 5⟩)] "tok") "tok" =
      logoutRevoke [("tok", ⟨"student", 5⟩)] "tok" :=
  ⟨(logout_revoke_props [] "tok").1 rfl,
   (logout_revoke_props [("tok", ⟨"student", 5⟩)] "tok").2.2.2⟩

/-- C7: the purge of the admin endpoint removes exactly the registry entries
whose expiry has passed the current time (it equals the filter keeping the
unexpired ones, so every other entry is untouched), and running it twice at
the same time removes nothing on the second run. -/
theorem purge_expired_props (now : Nat) (reg : Registry) (h : nodupKeys reg) :
    purge_expired now reg = reg.filter (fun p => decide (¬ now > p.2.expires_at)) ∧
    purge_expired now (purge_expired now reg) = purge_expired now reg := by
  have hfil := purge_expired_eq_filter now reg h
  refine ⟨hfil, ?_⟩
  rw [hfil]
  apply purge_expired_of_no_expired
  rw [List.filter_filter]
  apply List.filter_eq_nil_iff.2
  intro a ha
  by_cases hgt : now > a.2.expires_at <;> simp [hgt]

/-- Witness for C7 on a two-entry registry with one expired entry. -/
theorem purge_expired_props_witness :
    purge_expired 10 [("t1", ⟨"student", 5⟩), ("t2", ⟨"teacher", 20⟩)] =
      [("t1", ⟨"student", 5⟩), ("t2", ⟨"teacher", 20⟩)].filter
        (fun p => decide (¬ 10 > p.2.expires_at)) ∧
    purge_expired 10 (purge_expired 10 [("t1", ⟨"student", 5⟩), ("t2", ⟨"teacher", 20⟩)]) =
      purge_expired 10 [("t1", ⟨"student", 5⟩), ("t2", ⟨"teacher", 20⟩)] :=
  purge_expired_props 10 [("t1", ⟨"student", 5⟩), ("t2", ⟨"teacher", 20⟩)]
    (by unfold nodupKeys; decide)

/-- C8: every failed login attempt produces the identical caller-visible
response — same 401 status, same "Incorrect username or password" detail,
same unchanged registry — whether the cause is an unknown username or a wrong
password for an existing one, so the two causes are indistinguishable. -/
theorem login_uniform_failure (hash : String → String) (now1 now2 : Nat) (nonce : String)
    (reg : Registry) (u1 p1 u2 p2 : String)
    (h1 : authenticate_user hash u1 p1 = none) (h2 : authenticate_user hash u2 p2 = none) :
    login hash now1 now2 nonce reg u1 p1 = login hash now1 now2 nonce reg u2 p2 ∧
    login hash now1 now2 nonce reg u1 p1 =
      (.error ⟨401, "Incorrect username or password"⟩, reg) := by
  have e1 : login hash now1 now2 nonce reg u1 p1 =
      (.error ⟨401, "Incorrect username or password"⟩, reg) := by
    unfold login
    rw [h1]
  have e2 : login hash now1 now2 nonce reg u2 p2 =
      (.error ⟨401, "Incorrect username or password"⟩, reg) := by
    unfold login
    rw [h2]
  exact ⟨e1.trans e2.symm, e1⟩

/-- Witness for C8: an unknown username versus a wrong password for the
existing `student` account, under a hash that separates the two passwords. -/
theorem login_uniform_failure_witness :
    login toyHashB 0 0 "n" [] "nobody" "whatever" =
      login toyHashB 0 0 "n" [] "student" "wrongpw" ∧
    login toyHashB 0 0 "n" [] "nobody" "whatever" =
      (.error ⟨401, "Incorrect username or password"⟩, []) :=
  login_uniform_failure toyHashB 0 0 "n" [] "nobody" "whatever" "student" "wrongpw"
    (by decide) (by decide)

/-- C9: `validate_token` is not total — its `except` clause does not catch
`TypeError`.  Both failing inputs carry a correct signature: the first has a
payload deserializing to a JSON array (so `token_data["expires_at"]` raises),
the second to an object whose `expires_at` is a number (so
`datetime.fromisoformat` raises).  The model evaluates the code to the
uncaught exception at both inputs. -/
theorem validate_token_uncaught_typeerror :
    validate_token toyHash 0 [] "A0#.aaaaaaaaaaaaaaaa" = .error .typeError ∧
    validate_token toyHash 0 [] "O1#10#expires_atN5#.aaaaaaaaaaaaaaaa" = .error .typeError := by
  constructor <;> rfl

/-- C10: in every reachable registry state, each entry maps a token string to
exactly the username and expiry that are encoded in that token's own signed
payload; login insertion, logout removal and the admin purge all preserve
this. -/
theorem registry_entries_match_payload (hash : String → String)
    (Hdot : ∀ s, '.' ∉ (hash s).data) (reg : Registry) (hreach : Reachable hash reg) :
    ∀ t info, (t, info) ∈ reg → tokenData t = some (info.username, info.expires_at) := by
  intro t info hmem
  have hwf : entryWF hash t info := reachable_wf hreach (t, info) hmem
  obtain ⟨n1, n2, nc, ht, hei⟩ := hwf
  rw [ht, tokenData_create Hdot, hei]

/-- Witness for C10: the single entry of the registry reached by one login. -/
theorem registry_entries_match_payload_witness :
    tokenData (create_simple_token toyHash 0 0 "n" "student").1 =
      some ("student", (create_simple_token toyHash 0 0 "n" "student").2) :=
  registry_entries_match_payload toyHash toyHash_no_dot _
    (Reachable.login_step [] 0 0 "n" "student" "password123" Reachable.init)
    (create_simple_token toyHash 0 0 "n" "student").1
    ⟨"student", (create_simple_token toyHash 0 0 "n" "student").2⟩
    (List.mem_cons_self _ _)

theorem sign_length {hash : String → String} (Hlen : ∀ s, (hash s).data.length = 64)
    (p : String) : (sign hash p).data.length = 16 := by
  show ((hash (p ++ secret_key)).data.take 16).length = 16
  rw [List.length_take, Hlen]
  rfl

/-- Replacing byte `i` of a signature `sign hash P` with a different byte `c`
always makes the signature check of `validate_token` fail, whatever the
current time and registry: if `c` is not the separator the recomputed
signature differs from the mutated one at position `i`; if `c` is the
separator the split moves and the remaining signature segment is shorter than
the 16 characters any recomputed signature has. -/
theorem mutated_sig_badSignature_general (hash : String → String)
    (Hlen : ∀ s, (hash s).data.length = 64) (Hdot : ∀ s, '.' ∉ (hash s).data)
    (now : Nat) (reg : Registry) (P : String) (i : Nat) (c : Char)
    (hi : i < (sign hash P).data.length)
    (hc : c ≠ (sign hash P).data.get ⟨i, hi⟩) :
    validateVerbose hash now reg (P ++ "." ++ String.mk ((sign hash P).data.set i c)) =
      .badSignature := by
  have hSlen : (sign hash P).data.length = 16 := sign_length Hlen P
  have hSd : '.' ∉ (sign hash P).data := sign_no_dot Hdot P
  have hmem : '.' ∈ (P ++ "." ++ String.mk ((sign hash P).data.set i c)).data :=
    dot_mem_append _ _
  by_cases hcdot : c = '.'
  · subst hcdot
    have hset : (sign hash P).data.set i '.' =
        (sign hash P).data.take i ++ '.' :: (sign hash P).data.drop (i + 1) :=
      List.set_eq_take_cons_drop '.' hi
    have hdata : (P ++ "." ++ String.mk ((sign hash P).data.set i '.')).data =
        (P.data ++ '.' :: (sign hash P).data.take i) ++ '.' :: (sign hash P).data.drop (i + 1) := by
      simp [String.data_append, hset]
    have hnod : '.' ∉ (sign hash P).data.drop (i + 1) :=
      fun hx => hSd (List.mem_of_mem_drop hx)
    have hrs : rsplitDot (P ++ "." ++ String.mk ((sign hash P).data.set i '.')) =
        (String.mk (P.data ++ '.' :: (sign hash P).data.take i),
         String.mk ((sign hash P).data.drop (i + 1))) := by
      simp only [rsplitDot, hdata, rsplit1_append hnod]
    have hne : String.mk ((sign hash P).data.drop (i + 1)) ≠
        sign hash (String.mk (P.data ++ '.' :: (sign hash P).data.take i)) := by
      intro heq
      have h1 : ((sign hash P).data.drop (i + 1)).length =
          (sign hash (String.mk (P.data ++ '.' :: (sign hash P).data.take i))).data.length :=
        congrArg (fun s : String => s.data.length) heq
      rw [List.length_drop, hSlen, sign_length Hlen] at h1
      omega
    simp only [validateVerbose, if_pos hmem, hrs]
    rw [if_neg hne]
  · have hnod : '.' ∉ ((sign hash P).data.set i c) := by
      intro hx
      rcases List.mem_or_eq_of_mem_set hx with hx2 | hx2
      · exact hSd hx2
      · exact hcdot hx2.symm
    have hrs : rsplitDot (P ++ "." ++ String.mk ((sign hash P).data.set i c)) =
        (P, String.mk ((sign hash P).data.set i c)) :=
      rsplitDot_append hnod
    have hne : String.mk ((sign hash P).data.set i c) ≠ sign hash P := by
      intro heq
      have hdeq : (sign hash P).data.set i c = (sign hash P).data := congrArg String.data heq
      have h1 : ((sign hash P).data.set i c)[i]? = some c := List.getElem?_set_self hi
      rw [hdeq, List.getElem?_eq_getElem hi] at h1
      exact hc (Option.some.inj h1).symm
    simp only [validateVerbose, if_pos hmem, hrs]
    rw [if_neg hne]

/-- C6: an issued token is the payload, the separator and the signature
segment (first conjunct); replacing any single byte of the signature segment
with a different byte makes `validate_token` reject the mutated string at the
signature-comparison step (as BadSignature), for every current time and
registry state. -/
theorem mutated_signature_rejected (hash : String → String)
    (Hlen : ∀ s, (hash s).data.length = 64) (Hdot : ∀ s, '.' ∉ (hash s).data)
    (now1 now2 : Nat) (nonce username : String) (now : Nat) (reg : Registry)
    (i : Nat) (c : Char)
    (hi : i < (sign hash (encodePayload (tokenJson username now1
      (now2 + ACCESS_TOKEN_EXPIRE_MINUTES * 60) nonce))).data.length)
    (hc : c ≠ (sign hash (encodePayload (tokenJson username now1
      (now2 + ACCESS_TOKEN_EXPIRE_MINUTES * 60) nonce))).data.get ⟨i, hi⟩) :
    (create_simple_token hash now1 now2 nonce username).1 =
      encodePayload (tokenJson username now1 (now2 + ACCESS_TOKEN_EXPIRE_MINUTES * 60) nonce)
        ++ "." ++
        sign hash (encodePayload (tokenJson username now1
          (now2 + ACCESS_TOKEN_EXPIRE_MINUTES * 60) nonce)) ∧
    validateVerbose hash now reg
      (encodePayload (tokenJson username now1 (now2 + ACCESS_TOKEN_EXPIRE_MINUTES * 60) nonce)
        ++ "." ++
        String.mk ((sign hash (encodePayload (tokenJson username now1
          (now2 + ACCESS_TOKEN_EXPIRE_MINUTES * 60) nonce))).data.set i c)) = .badSignature ∧
    validate_token hash now reg
      (encodePayload (tokenJson username now1 (now2 + ACCESS_TOKEN_EXPIRE_MINUTES * 60) nonce)
        ++ "." ++
        String.mk ((sign hash (encodePayload (tokenJson username now1
          (now2 + ACCESS_TOKEN_EXPIRE_MINUTES * 60) nonce))).data.set i c)) = .ok none := by
  refine ⟨?_, ?_, ?_⟩
  · rw [create_simple_token_eq]
  · exact mutated_sig_badSignature_general hash Hlen Hdot now reg _ i c hi hc
  · rw [validate_token_eq_vErase,
      mutated_sig_badSignature_general hash Hlen Hdot now reg _ i c hi hc]
    rfl

/-- Witness for C6: mutate the first signature byte of a token issued to
`student` at time 0 into `'b'`; the BadSignature conjunct of the theorem at
that concrete input. -/
theorem mutated_signature_rejected_witness :
    validateVerbose toyHash 0 []
      (encodePayload (tokenJson "student" 0 (0 + ACCESS_TOKEN_EXPIRE_MINUTES * 60) "n")
        ++ "." ++
        String.mk ((sign toyHash (encodePayload (tokenJson "student" 0
          (0 + ACCESS_TOKEN_EXPIRE_MINUTES * 60) "n"))).data.set 0 'b')) = .badSignature :=
  (mutated_signature_rejected toyHash toyHash_len toyHash_no_dot 0 0 "n" "student" 0 [] 0 'b'
    (by decide) (by decide)).2.1
